import Mathlib

set_option maxHeartbeats 1000000

/-!
Shallow embedding of the nested-set plugin (`src/nestedSet.ts`).

A record store is a `List NSNode`.  `lft`/`rgt` are `Option Int`
(absent until a tree is built); JavaScript numeric truthiness
(`0` and `undefined` are falsy) is modelled by `truthy`.  MongoDB
comparison filters (`$gt`, `$lt`, ...) do not match documents in
which the compared field is missing, which `cmpLt`/`cmpLe` reflect.
The optional grouping key is a `Bool` flag `g` (configured or not)
together with a per-record `grp` value.
-/

/-- A stored record: `id`, optional parent reference, optional nested-set
boundaries `lft`/`rgt`, depth `lvl`, and optional grouping-key value. -/
structure NSNode where
  id : Nat
  parentId : Option Nat
  lft : Option Int
  rgt : Option Int
  lvl : Int
  grp : Option Int
deriving DecidableEq, Repr

/-- JavaScript numeric truthiness of a possibly-absent field:
`undefined` and `0` are falsy, every other number is truthy. -/
def truthy : Option Int → Bool
  | none => false
  | some v => v != 0

/-- MongoDB `field < bound` comparison: matches only when both sides are
present numbers. -/
def cmpLt : Option Int → Option Int → Bool
  | some a, some b => decide (a < b)
  | _, _ => false

/-- MongoDB `field <= bound` comparison: matches only when both sides are
present numbers. -/
def cmpLe : Option Int → Option Int → Bool
  | some a, some b => decide (a ≤ b)
  | _, _ => false

/-- Point lookup by id (`findOne({_id: i})`). -/
def findOneId (st : List NSNode) (i : Nat) : Option NSNode :=
  st.find? (fun n => n.id == i)

/-- The `siblings` query: all records with the same parent reference,
excluding the querying node itself.  The source builds the filter
`{parentField: self.parentId, idField: {$ne: self.id}}` with no other
conditions. -/
def siblings (st : List NSNode) (self : NSNode) : List NSNode :=
  st.filter (fun n => n.parentId == self.parentId && n.id != self.id)

/-- The `selfAndSiblings` query: filter `{parentField: self.parentId}`. -/
def selfAndSiblings (st : List NSNode) (self : NSNode) : List NSNode :=
  st.filter (fun n => n.parentId == self.parentId)

/-- The `children` query: filter `{parentField: self.id}`. -/
def children (st : List NSNode) (self : NSNode) : List NSNode :=
  st.filter (fun n => n.parentId == some self.id)

/-- The `selfAndChildren` query: filter
`{$or: [{parentField: self.id}, {idField: self.id}]}`. -/
def selfAndChildren (st : List NSNode) (self : NSNode) : List NSNode :=
  st.filter (fun n => n.parentId == some self.id || n.id == self.id)

/-- The `ancestors` query: filter `{lft: {$lt: self.lft}, rgt: {$gt: self.rgt}}`. -/
def ancestors (st : List NSNode) (self : NSNode) : List NSNode :=
  st.filter (fun n => cmpLt n.lft self.lft && cmpLt self.rgt n.rgt)

/-- The `selfAndAncestors` query: filter `{lft: {$lte: self.lft}, rgt: {$gte: self.rgt}}`. -/
def selfAndAncestors (st : List NSNode) (self : NSNode) : List NSNode :=
  st.filter (fun n => cmpLe n.lft self.lft && cmpLe self.rgt n.rgt)

/-- The `descendants` query: filter `{lft: {$gt: self.lft}, rgt: {$lt: self.rgt}}`. -/
def descendants (st : List NSNode) (self : NSNode) : List NSNode :=
  st.filter (fun n => cmpLt self.lft n.lft && cmpLt n.rgt self.rgt)

/-- The `selfAndDescendants` query: filter `{lft: {$gte: self.lft}, rgt: {$lte: self.rgt}}`. -/
def selfAndDescendants (st : List NSNode) (self : NSNode) : List NSNode :=
  st.filter (fun n => cmpLe self.lft n.lft && cmpLe n.rgt self.rgt)

/-- The `level` method: the number of ancestors. -/
def level (st : List NSNode) (self : NSNode) : Nat :=
  (ancestors st self).length

/-- `isLeaf`: `this.lft && this.rgt && (this.rgt - this.lft === 1)`.
The arithmetic is only reached when both boundaries are truthy. -/
def isLeaf (n : NSNode) : Bool :=
  truthy n.lft && truthy n.rgt && (n.rgt.getD 0 - n.lft.getD 0 == 1)

/-- `isChild`: `!!this.parentId`. -/
def isChild (n : NSNode) : Bool :=
  n.parentId.isSome

/-- `isDescendantOf`: `other.lft < self.lft && self.lft < other.rgt`. -/
def isDescendantOf (self other : NSNode) : Bool :=
  cmpLt other.lft self.lft && cmpLt self.lft other.rgt

/-- `isAncestorOf`: `self.lft < other.lft && other.lft < self.rgt`. -/
def isAncestorOf (self other : NSNode) : Bool :=
  cmpLt self.lft other.lft && cmpLt other.lft self.rgt

/-- Interval disjointness of two boundary pairs (both present):
one interval lies strictly to the left of the other. -/
def intervalsDisjoint (a b : NSNode) : Bool :=
  cmpLt a.rgt b.lft || cmpLt b.rgt a.lft

/-- Both boundaries truthy, as checked by the hooks on each sibling
(`node.lft && node.rgt`). -/
def boundariesSet (n : NSNode) : Bool :=
  truthy n.lft && truthy n.rgt

/-- The grouping-key scope added by `updateConditions`: when a grouping
key is configured (`g = true`), restrict to records whose grouping value
equals the hooked item's; otherwise no restriction. -/
def sameGroup (g : Bool) (self n : NSNode) : Bool :=
  !g || n.grp == self.grp

/-- One step of the hooks' `maxRgt` fold: take the sibling's `rgt` when
it exceeds the accumulator (`node.rgt > maxRgt`); an absent `rgt` never
exceeds (JavaScript comparison with `undefined` is false). -/
def maxStep (acc : Int) (n : NSNode) : Int :=
  match n.rgt with
  | some v => if acc < v then v else acc
  | none => acc

/-- The hooks' `maxRgt` computation, starting from `0`. -/
def maxRgtFold (nodes : List NSNode) : Int :=
  nodes.foldl maxStep 0

/-- The `pre('save')` hook.  Returns the updated store together with the
(possibly mutated) document being saved.  The document is not yet in the
store. -/
def preSave (g : Bool) (st : List NSNode) (self : NSNode) : List NSNode × NSNode :=
  match self.parentId with
  | none => (st, self)
  | some pid =>
    match findOneId st pid with
    | none => (st, self)
    | some parentNode =>
      if truthy parentNode.lft && truthy parentNode.rgt then
        let self1 := { self with lvl := parentNode.lvl + 1 }
        let nodes := siblings st self
        if nodes.all boundariesSet then
          let m0 := maxRgtFold nodes
          let maxRgt := if nodes.length == 0 then parentNode.lft.getD 0 else m0
          let st1 := st.map (fun n =>
            if cmpLt (some maxRgt) n.lft && sameGroup g self n then
              { n with lft := n.lft.map (· + 2) } else n)
          let st2 := st1.map (fun n =>
            if cmpLt (some maxRgt) n.rgt && sameGroup g self n then
              { n with rgt := n.rgt.map (· + 2) } else n)
          (st2, { self1 with lft := some (maxRgt + 1), rgt := some (maxRgt + 2) })
        else (st, self1)
      else (st, self)

/-- The `pre('remove')` hook.  Returns the updated store; the document
itself (still present in the store) is not mutated by the hook, and its
record is deleted by the external lifecycle afterwards. -/
def preRemove (g : Bool) (st : List NSNode) (self : NSNode) : List NSNode :=
  match self.parentId with
  | none => st
  | some pid =>
    match findOneId st pid with
    | none => st
    | some parentNode =>
      if truthy parentNode.lft && truthy parentNode.rgt then
        let nodes := siblings st self
        if nodes.all boundariesSet then
          let m0 := maxRgtFold nodes
          let maxRgt := if nodes.length == 0 then parentNode.lft.getD 0 else m0
          let st1 := st.map (fun n =>
            if cmpLt (some maxRgt) n.lft && sameGroup g self n then
              { n with lft := n.lft.map (· + (-2)) } else n)
          let st2 := st1.map (fun n =>
            if cmpLt (some maxRgt) n.rgt && sameGroup g self n then
              { n with rgt := n.rgt.map (· + (-2)) } else n)
          st2
        else st
      else st

/-- The direct-children lookup used by `rebuildTree`:
`find({parentField: parent.id})`, in store order, with no grouping-key
condition. -/
def childIds (st : List NSNode) (i : Nat) : List Nat :=
  (st.filter (fun n => n.parentId == some i)).map (fun n => n.id)

/-- `updateOne({idField: i}, {lft: l, rgt: r})`. -/
def setBounds (st : List NSNode) (i : Nat) (l r : Int) : List NSNode :=
  st.map (fun n => if n.id == i then { n with lft := some l, rgt := some r } else n)

/-- `rebuildTree(parent, left)`, fuelled for termination.  Returns the
updated store and the final in-memory `rgt` of the processed node:
tentatively `left + 1`, then advanced to `child.rgt + 1` after each child
subtree, with `updateOne` persisting the node after each step exactly as
the source does. -/
def rebuildGo : Nat → List NSNode → Nat → Int → List NSNode × Int
  | 0, st, _, left => (st, left + 1)
  | fuel+1, st, i, left =>
    let cs := childIds st i
    if cs.isEmpty then (setBounds st i left (left + 1), left + 1)
    else cs.foldl (fun acc c =>
      let r := rebuildGo fuel acc.1 c acc.2
      (setBounds r.1 i left (r.2 + 1), r.2 + 1)) (st, left + 1)

/-- JavaScript truthiness of the array returned by `find`: an array
object is truthy even when empty, so the source's `if (!children)` guard
can never fire. -/
def listTruthy (xs : List NSNode) : Bool :=
  true

/-- `rebuildTree` with its error channel: the source raises
`new Error(modelName + ' not found')` when the children query result is
falsy, and otherwise proceeds as `rebuildGo`. -/
def rebuildGoE : Nat → List NSNode → Nat → Int → Except String (List NSNode × Int)
  | 0, st, _, left => Except.ok (st, left + 1)
  | fuel+1, st, i, left =>
    let childDocs := st.filter (fun n => n.parentId == some i)
    if listTruthy childDocs = false then Except.error "not found"
    else
      let cs := childDocs.map (fun n => n.id)
      if cs.isEmpty then Except.ok (setBounds st i left (left + 1), left + 1)
      else cs.foldl (fun acc c =>
        match acc with
        | Except.error e => Except.error e
        | Except.ok p =>
          match rebuildGoE fuel p.1 c p.2 with
          | Except.error e => Except.error e
          | Except.ok r => Except.ok (setBounds r.1 i left (r.2 + 1), r.2 + 1))
        (Except.ok (st, left + 1))

/-- Pure recomputation of the boundary assignment performed by
`rebuildGo`: the list of `(id, lft, rgt)` triples it writes (parent entry
first), and the final `rgt`.  The store argument is only read through
`childIds`, which `rebuildGo` never changes. -/
def assignGo : Nat → List NSNode → Nat → Int → List (Nat × Int × Int) × Int
  | 0, _, _, left => ([], left + 1)
  | fuel+1, st, i, left =>
    let cs := childIds st i
    if cs.isEmpty then ([(i, left, left + 1)], left + 1)
    else
      let p := cs.foldl (fun acc c =>
        let r := assignGo fuel st c acc.2
        (acc.1 ++ r.1, r.2 + 1)) (([] : List (Nat × Int × Int)), left + 1)
      ((i, left, p.2) :: p.1, p.2)

/-- First assignment entry for a given id. -/
def lookupA (asg : List (Nat × Int × Int)) (j : Nat) : Option (Nat × Int × Int) :=
  asg.find? (fun e => e.1 == j)

/-- Apply an assignment to a store: set both boundaries of every record
whose id has an entry. -/
def applyA (asg : List (Nat × Int × Int)) (st : List NSNode) : List NSNode :=
  st.map (fun n =>
    match lookupA asg n.id with
    | some e => { n with lft := some e.2.1, rgt := some e.2.2 }
    | none => n)

/-- The ids of the subtree rooted at `i` according to the parent-pointer
data, enumerated exactly as the rebuild recursion visits them. -/
def subtreeIds : Nat → List NSNode → Nat → List Nat
  | 0, _, _ => []
  | fuel+1, st, i => i :: (childIds st i).flatMap (subtreeIds fuel st)

/-- `okFuel fuel st i` holds when the rebuild recursion from `i` finishes
strictly within `fuel` levels (the parent-pointer data reachable from `i`
is a tree of depth less than `fuel`). -/
def okFuel : Nat → List NSNode → Nat → Bool
  | 0, _, _ => false
  | fuel+1, st, i => (childIds st i).all (okFuel fuel st)

/-- Consecutive integers `a, a+1, ..., a+n-1`. -/
def intRange (a : Int) (n : Nat) : List Int :=
  (List.range n).map (fun t : Nat => a + (t : Int))

/-- The two boundary values of a record (defaulting absent ones to 0;
after a rebuild every record in the subtree has both set). -/
def boundPair (n : NSNode) : List Int :=
  [n.lft.getD 0, n.rgt.getD 0]

/-- The hooks' `lft` range update as a per-record function: add `d` to
`lft` when `lft > M` and the record is in the hooked item's partition
scope. -/
def shiftLft (M d : Int) (g : Bool) (self n : NSNode) : NSNode :=
  if cmpLt (some M) n.lft && sameGroup g self n then
    { n with lft := n.lft.map (· + d) } else n

/-- The hooks' `rgt` range update as a per-record function: add `d` to
`rgt` when `rgt > M` and the record is in the hooked item's partition
scope. -/
def shiftRgt (M d : Int) (g : Bool) (self n : NSNode) : NSNode :=
  if cmpLt (some M) n.rgt && sameGroup g self n then
    { n with rgt := n.rgt.map (· + d) } else n

/-- The `maxRgt` value both hooks compute on their shift path: the
sibling fold, or the parent's `lft` when there are no siblings. -/
def saveM (st : List NSNode) (self par : NSNode) : Int :=
  if (siblings st self).length == 0 then par.lft.getD 0
  else maxRgtFold (siblings st self)

/-- The 10-node test tree, in the test suite's insertion order:
michael (1) is the root; meredith (2), jim (3), angela (4) are its
children; meredith has kelly (5) and creed (6); jim has phyllis (7),
stanley (8), dwight (9); angela has oscar (10). -/
def officeStore : List NSNode :=
  [⟨1, none, none, none, 0, none⟩, ⟨2, some 1, none, none, 0, none⟩,
   ⟨3, some 1, none, none, 0, none⟩, ⟨4, some 1, none, none, 0, none⟩,
   ⟨5, some 2, none, none, 0, none⟩, ⟨6, some 2, none, none, 0, none⟩,
   ⟨7, some 3, none, none, 0, none⟩, ⟨8, some 3, none, none, 0, none⟩,
   ⟨9, some 3, none, none, 0, none⟩, ⟨10, some 4, none, none, 0, none⟩]

/-- A built parent with boundaries `[1, 4]`. -/
def nodeP : NSNode := ⟨1, none, some 1, some 4, 0, none⟩

/-- The single built child of `nodeP`, with boundaries `[2, 3]`. -/
def nodeC : NSNode := ⟨2, some 1, some 2, some 3, 1, none⟩

/-- A freshly created, not yet persisted child of `nodeP` (no boundaries). -/
def newChild : NSNode := ⟨3, some 1, none, none, 0, none⟩

/-- A parent whose `lft` is the number `0` (boundaries numerically present
but falsy). -/
def parZero : NSNode := ⟨1, none, some 0, some 3, 0, none⟩

/-- A sibling whose `lft` is the number `0`. -/
def sibZero : NSNode := ⟨2, some 1, some 0, some 3, 1, none⟩

/-- A root record with no boundaries at all. -/
def parUnset : NSNode := ⟨1, none, none, none, 0, none⟩

/-- Grouping-key scenario: a built root in partition 10. -/
def nodeG0 : NSNode := ⟨0, none, some 1, some 9, 0, some 10⟩

/-- Grouping-key scenario: a child of `nodeG0` in partition 10. -/
def nodeG1 : NSNode := ⟨1, some 0, some 2, some 3, 1, some 10⟩

/-- Grouping-key scenario: a record whose parent reference points at
`nodeG0` but whose grouping value is 20 — a different partition. -/
def nodeG2 : NSNode := ⟨2, some 0, some 4, some 5, 1, some 20⟩

/-- Grouping-key scenario: a root of partition 20 whose interval happens
to contain `nodeG1`'s. -/
def nodeG3 : NSNode := ⟨3, none, some 1, some 9, 0, some 20⟩

/-- The grouping-key scenario store. -/
def groupStore : List NSNode := [nodeG0, nodeG1, nodeG2, nodeG3]

/-- A two-node tree: root 1 with a single child 2, boundaries unset. -/
def twoStore : List NSNode :=
  [⟨1, none, none, none, 0, none⟩, ⟨2, some 1, none, none, 0, none⟩]

/-! ## Helper lemmas -/

lemma maxStep_ge (a : Int) (n : NSNode) : a ≤ maxStep a n := by
  unfold maxStep
  cases n.rgt with
  | none => exact le_refl a
  | some v => dsimp only; split <;> omega

lemma foldl_maxStep_ge : ∀ (l : List NSNode) (a : Int), a ≤ l.foldl maxStep a := by
  intro l
  induction l with
  | nil => intro a; exact le_refl a
  | cons n l ih =>
    intro a
    exact le_trans (maxStep_ge a n) (ih (maxStep a n))

lemma foldl_maxStep_ub : ∀ (l : List NSNode) (a : Int) (s : NSNode), s ∈ l →
    ∀ r : Int, s.rgt = some r → r ≤ l.foldl maxStep a := by
  intro l
  induction l with
  | nil => intro a s hs; cases hs
  | cons n l ih =>
    intro a s hs r hr
    rcases List.mem_cons.mp hs with h | h
    · subst h
      refine le_trans ?_ (foldl_maxStep_ge l (maxStep a s))
      unfold maxStep
      rw [hr]
      dsimp only
      split <;> omega
    · exact ih (maxStep a n) s h r hr

lemma foldl_maxStep_attained : ∀ (l : List NSNode) (a : Int),
    l.foldl maxStep a = a ∨ ∃ s ∈ l, s.rgt = some (l.foldl maxStep a) := by
  intro l
  induction l with
  | nil => intro a; exact Or.inl rfl
  | cons n l ih =>
    intro a
    rcases ih (maxStep a n) with h | ⟨s, hs, hr⟩
    · rw [List.foldl_cons, h]
      unfold maxStep
      cases hn : n.rgt with
      | none => exact Or.inl rfl
      | some v =>
        dsimp only
        split
        · exact Or.inr ⟨n, List.mem_cons_self n l, by rw [hn]⟩
        · exact Or.inl rfl
    · exact Or.inr ⟨s, List.mem_cons_of_mem n hs, by rw [List.foldl_cons]; exact hr⟩

lemma rebuildGoE_eq_ok : ∀ (fuel : Nat) (st : List NSNode) (i : Nat) (left : Int),
    rebuildGoE fuel st i left = Except.ok (rebuildGo fuel st i left) := by
  intro fuel
  induction fuel with
  | zero => intro st i left; rfl
  | succ fuel ih =>
    intro st i left
    rw [rebuildGoE, rebuildGo]
    simp only [listTruthy, if_neg (by simp : ¬ (true = false))]
    have hcs : (st.filter (fun n => n.parentId == some i)).map (fun n => n.id) = childIds st i := rfl
    rw [hcs]
    by_cases h : (childIds st i).isEmpty
    · rw [if_pos h, if_pos h]
    · rw [if_neg h, if_neg h]
      generalize (st, left + 1) = p
      induction childIds st i generalizing p with
      | nil => rfl
      | cons c cs ihc =>
        rw [List.foldl_cons, List.foldl_cons]
        dsimp only
        rw [ih]
        exact ihc _

/-! ## Claim theorems -/

/-- **C3**  On the 10-node office tree (root michael with children
meredith, jim, angela; meredith has kelly, creed; jim has phyllis,
stanley, dwight; angela has oscar), `rebuildTree(michael, 1)` assigns
exactly michael=[1,20], meredith=[2,7], kelly=[3,4], creed=[5,6],
jim=[8,15], phyllis=[9,10], stanley=[11,12], dwight=[13,14],
angela=[16,19], oscar=[17,18]. -/
theorem rebuild_office_scenario :
    (rebuildGo 10 officeStore 1 1).1.map (fun n => (n.id, n.lft, n.rgt)) =
      [(1, some 1, some 20), (2, some 2, some 7), (3, some 8, some 15),
       (4, some 16, some 19), (5, some 3, some 4), (6, some 5, some 6),
       (7, some 9, some 10), (8, some 11, some 12), (9, some 13, some 14),
       (10, some 17, some 18)] := by decide

/-- **C6** (counterexample)  With an empty store the root record (id 5)
cannot be located by id, yet `rebuildTree` does not fail: the children
query returns an (empty, truthy) array, so the NotFound branch is not
taken and the call succeeds. -/
theorem rebuild_notfound_cex :
    findOneId ([] : List NSNode) 5 = none ∧
      rebuildGoE 1 [] 5 1 = Except.ok ([], 2) := ⟨rfl, rfl⟩

/-- **C6** (amended)  `rebuildTree` never fails with NotFound: its guard
tests whether the children query result is falsy, and a query result is
always a (possibly empty) array, which is truthy in JavaScript, so the
error branch is unreachable and the operation always completes. -/
theorem rebuild_never_notfound (fuel : Nat) (st : List NSNode) (i : Nat) (left : Int) :
    rebuildGoE fuel st i left = Except.ok (rebuildGo fuel st i left) :=
  rebuildGoE_eq_ok fuel st i left

/-- **C5**  For two nodes of the same partition with boundaries set,
under the nested-set trichotomy invariant, exactly one of `A = B`,
`isDescendantOf A B`, `isAncestorOf A B`, or interval disjointness
holds — partial interval overlap never occurs. -/
theorem interval_relation_trichotomy (A B : NSNode) (al ar bl br : Int)
    (hAl : A.lft = some al) (hAr : A.rgt = some ar)
    (hBl : B.lft = some bl) (hBr : B.rgt = some br)
    (hAo : al < ar) (hBo : bl < br) (hgrp : A.grp = B.grp)
    (hwf : A = B ∨ (bl < al ∧ ar < br) ∨ (al < bl ∧ br < ar) ∨ ar < bl ∨ br < al) :
    (A = B ∧ isDescendantOf A B = false ∧ isAncestorOf A B = false ∧
        intervalsDisjoint A B = false) ∨
    (A ≠ B ∧ isDescendantOf A B = true ∧ isAncestorOf A B = false ∧
        intervalsDisjoint A B = false) ∨
    (A ≠ B ∧ isDescendantOf A B = false ∧ isAncestorOf A B = true ∧
        intervalsDisjoint A B = false) ∨
    (A ≠ B ∧ isDescendantOf A B = false ∧ isAncestorOf A B = false ∧
        intervalsDisjoint A B = true) := by
  simp only [isDescendantOf, isAncestorOf, intervalsDisjoint, cmpLt, hAl, hAr, hBl, hBr,
    Bool.and_eq_true, Bool.and_eq_false_iff, Bool.or_eq_true, Bool.or_eq_false_iff,
    decide_eq_true_eq, decide_eq_false_iff_not]
  rcases hwf with h | ⟨h1, h2⟩ | ⟨h1, h2⟩ | h | h
  · have e1 : al = bl := by rw [h, hBl] at hAl; exact (Option.some.inj hAl).symm
    have e2 : ar = br := by rw [h, hBr] at hAr; exact (Option.some.inj hAr).symm
    exact Or.inl ⟨h, by omega, by omega, by omega⟩
  · have hne : A ≠ B := by
      intro hEq
      rw [hEq, hBl] at hAl
      have := Option.some.inj hAl
      omega
    exact Or.inr (Or.inl ⟨hne, by omega, by omega, by omega⟩)
  · have hne : A ≠ B := by
      intro hEq
      rw [hEq, hBl] at hAl
      have := Option.some.inj hAl
      omega
    exact Or.inr (Or.inr (Or.inl ⟨hne, by omega, by omega, by omega⟩))
  · have hne : A ≠ B := by
      intro hEq
      rw [hEq, hBl] at hAl
      rw [hEq, hBr] at hAr
      have e1 := Option.some.inj hAl
      have e2 := Option.some.inj hAr
      omega
    exact Or.inr (Or.inr (Or.inr ⟨hne, by omega, by omega, by omega⟩))
  · have hne : A ≠ B := by
      intro hEq
      rw [hEq, hBl] at hAl
      rw [hEq, hBr] at hAr
      have e1 := Option.some.inj hAl
      have e2 := Option.some.inj hAr
      omega
    exact Or.inr (Or.inr (Or.inr ⟨hne, by omega, by omega, by omega⟩))

/-- Witness for C5: the parent `[1,4]` and its child `[2,3]` fall in the
`isAncestorOf` case, all other relations false. -/
theorem interval_relation_trichotomy_witness :
    (nodeP = nodeC ∧ isDescendantOf nodeP nodeC = false ∧ isAncestorOf nodeP nodeC = false ∧
        intervalsDisjoint nodeP nodeC = false) ∨
    (nodeP ≠ nodeC ∧ isDescendantOf nodeP nodeC = true ∧ isAncestorOf nodeP nodeC = false ∧
        intervalsDisjoint nodeP nodeC = false) ∨
    (nodeP ≠ nodeC ∧ isDescendantOf nodeP nodeC = false ∧ isAncestorOf nodeP nodeC = true ∧
        intervalsDisjoint nodeP nodeC = false) ∨
    (nodeP ≠ nodeC ∧ isDescendantOf nodeP nodeC = false ∧ isAncestorOf nodeP nodeC = false ∧
        intervalsDisjoint nodeP nodeC = true) :=
  interval_relation_trichotomy nodeP nodeC 1 4 2 3 rfl rfl rfl rfl (by omega) (by omega) rfl
    (Or.inr (Or.inr (Or.inl ⟨by omega, by omega⟩)))

/-- **C10**  Boundary-set detection is by numeric truthiness: a boundary
value of `0` counts as unset.  `isLeaf` is false for any node with
`lft = 0` even when `rgt - lft = 1`, and both hooks treat a parent or a
sibling whose `lft` is `0` as unbuilt, skipping all boundary work. -/
theorem zero_boundary_treated_as_unset (g : Bool) (st : List NSNode)
    (self par n : NSNode) (pid : Nat) :
    (n.lft = some 0 → isLeaf n = false) ∧
    (self.parentId = some pid → findOneId st pid = some par → par.lft = some 0 →
      preSave g st self = (st, self) ∧ preRemove g st self = st) ∧
    (self.parentId = some pid → findOneId st pid = some par →
      truthy par.lft = true → truthy par.rgt = true →
      (∃ s ∈ siblings st self, s.lft = some 0) →
      (preSave g st self).1 = st ∧ (preSave g st self).2.lft = self.lft ∧
        (preSave g st self).2.rgt = self.rgt ∧ preRemove g st self = st) := by
  refine ⟨?_, ?_, ?_⟩
  · intro h
    simp [isLeaf, h, truthy]
  · intro hp hf hz
    constructor
    · simp [preSave, hp, hf, hz, truthy]
    · simp [preRemove, hp, hf, hz, truthy]
  · rintro hp hf hl hr ⟨s, hs, hsz⟩
    have hall : (siblings st self).all boundariesSet = false := by
      rw [List.all_eq_false]
      exact ⟨s, hs, by simp [boundariesSet, hsz, truthy]⟩
    simp [preSave, preRemove, hp, hf, hl, hr, hall]

/-- Witness for C10: a node with `lft = 0`, `rgt = 1` is not a leaf; a
parent with `lft = 0` makes the save hook a no-op; a sibling with
`lft = 0` makes the save hook leave the store unchanged. -/
theorem zero_boundary_treated_as_unset_witness :
    isLeaf ⟨1, none, some 0, some 1, 0, none⟩ = false ∧
    preSave false [parZero] newChild = ([parZero], newChild) ∧
    (preSave false [nodeP, sibZero] newChild).1 = [nodeP, sibZero] :=
  ⟨(zero_boundary_treated_as_unset false [] parZero parZero
      ⟨1, none, some 0, some 1, 0, none⟩ 1).1 rfl,
   ((zero_boundary_treated_as_unset false [parZero] newChild parZero parZero 1).2.1
      rfl rfl rfl).1,
   ((zero_boundary_treated_as_unset false [nodeP, sibZero] newChild nodeP nodeP 1).2.2
      rfl rfl rfl rfl ⟨sibZero, by decide, rfl⟩).1⟩

/-- **C9**  When the parent's boundaries are not truthy, or any existing
sibling's boundaries are not truthy, both hooks perform no range update:
the store is returned unchanged and the saved node keeps its `lft`/`rgt`
(no error is raised; the functions return normally). -/
theorem missing_boundaries_noop (g : Bool) (st : List NSNode) (self par : NSNode) (pid : Nat)
    (hp : self.parentId = some pid) (hf : findOneId st pid = some par)
    (hdeg : truthy par.lft = false ∨ truthy par.rgt = false ∨
      ∃ s ∈ siblings st self, boundariesSet s = false) :
    (preSave g st self).1 = st ∧ (preSave g st self).2.lft = self.lft ∧
      (preSave g st self).2.rgt = self.rgt ∧ preRemove g st self = st := by
  rcases hdeg with h | h | ⟨s, hs, hb⟩
  · simp [preSave, preRemove, hp, hf, h]
  · simp [preSave, preRemove, hp, hf, h]
  · have hall : (siblings st self).all boundariesSet = false := by
      rw [List.all_eq_false]
      exact ⟨s, hs, by simp [hb]⟩
    cases hc : (truthy par.lft && truthy par.rgt) <;>
      simp [preSave, preRemove, hp, hf, hc, hall]

/-- Witness for C9: saving or removing a child under a parent with no
boundaries at all leaves everything untouched. -/
theorem missing_boundaries_noop_witness :
    (preSave false [parUnset] newChild).1 = [parUnset] ∧
      (preSave false [parUnset] newChild).2.lft = newChild.lft ∧
      (preSave false [parUnset] newChild).2.rgt = newChild.rgt ∧
      preRemove false [parUnset] newChild = [parUnset] :=
  missing_boundaries_noop false [parUnset] newChild parUnset 1 rfl rfl (Or.inl rfl)

/-- **C8** (counterexample)  In the zero-sibling case removing `nodeC`
(the only child, `[2,3]`, under `nodeP` `[1,4]`) computes
`maxRgt = parent.lft = 1`, and the removed node's own stored record
matches both -2 range updates: its record ends as `[0,1]`, not `[2,3]`. -/
theorem removed_node_matches_shift_cex :
    preRemove false [nodeP, nodeC] nodeC =
      [⟨1, none, some 1, some 2, 0, none⟩, ⟨2, some 1, some 0, some 1, 1, none⟩] ∧
    ¬ (∀ n ∈ preRemove false [nodeP, nodeC] nodeC,
        n.id = nodeC.id → n.lft = nodeC.lft ∧ n.rgt = nodeC.rgt) := by decide

/-- **C8** (amended)  The removal hook's -2 range updates treat the
removed node's stored record like any other record: whenever its
boundaries exceed `maxRgt` — always the case with zero siblings, where
`maxRgt = parent.lft < self.lft` — the stored record is decremented by 2
on both fields (it is deleted immediately afterwards by the external
lifecycle; only the in-memory document's fields are untouched). -/
theorem removed_node_shifted_zero_sibling (g : Bool) (st : List NSNode)
    (self par : NSNode) (pid : Nat) (pl sl sr : Int)
    (hp : self.parentId = some pid) (hf : findOneId st pid = some par)
    (hpl : par.lft = some pl) (hpl0 : pl ≠ 0) (hpr : truthy par.rgt = true)
    (hsib : siblings st self = [])
    (hsl : self.lft = some sl) (hsr : self.rgt = some sr)
    (h1 : pl < sl) (h2 : pl < sr) (hmem : self ∈ st) :
    { self with lft := some (sl - 2), rgt := some (sr - 2) } ∈ preRemove g st self := by
  have htl : truthy (some pl) = true := by simp [truthy, hpl0]
  simp only [preRemove, hp, hf, hpl, hpr, htl, hsib, List.all_nil, Option.getD_some,
    List.length_nil, Bool.and_true, Bool.and_self, beq_self_eq_true, eq_self_iff_true,
    if_true, List.map_map]
  refine List.mem_map.mpr ⟨self, hmem, ?_⟩
  obtain ⟨sid, spid, slft, srgt, slvl, sgrp⟩ := self
  simp only at hsl hsr
  subst hsl
  subst hsr
  simp only at hp
  simp [cmpLt, sameGroup, h1, h2]
  exact ⟨hp, by omega, by omega⟩

/-- Witness for C8 (amended): the concrete zero-sibling removal of
`nodeC` leaves its stored record at `[0,1]` in the updated store. -/
theorem removed_node_shifted_zero_sibling_witness :
    ({ nodeC with lft := some (2 - 2), rgt := some (3 - 2) } : NSNode) ∈
      preRemove false [nodeP, nodeC] nodeC :=
  removed_node_shifted_zero_sibling false [nodeP, nodeC] nodeC nodeP 1 1 2 3
    rfl rfl rfl (by decide) rfl (by decide) rfl rfl (by decide) (by decide) (by decide)

/-- **C7** (counterexample)  With a grouping key configured, the
relationship queries and rebuildTree's children lookup are not scoped to
the querying node's grouping value: records from other partitions match.
`nodeG2` (partition 20) appears among the siblings of `nodeG1` and the
children of `nodeG0` (both partition 10); `nodeG3` (partition 20) appears
among the ancestors of `nodeG1`; `nodeG1` (partition 10) appears among
the descendants of `nodeG3`. -/
theorem queries_not_scoped_by_group_cex :
    siblings groupStore nodeG1 = [nodeG2] ∧ nodeG2.grp ≠ nodeG1.grp ∧
    children groupStore nodeG0 = [nodeG1, nodeG2] ∧ nodeG2.grp ≠ nodeG0.grp ∧
    selfAndSiblings groupStore nodeG1 = [nodeG1, nodeG2] ∧
    ancestors groupStore nodeG1 = [nodeG0, nodeG3] ∧ nodeG3.grp ≠ nodeG1.grp ∧
    descendants groupStore nodeG3 = [nodeG1, nodeG2] ∧ nodeG1.grp ≠ nodeG3.grp ∧
    childIds groupStore 0 = [1, 2] := by decide

lemma preSave_store_map (g : Bool) (st : List NSNode) (self : NSNode) :
    ∃ F : NSNode → NSNode,
      (preSave g st self).1 = st.map F ∧
      (∀ n, (F n).id = n.id ∧ (F n).parentId = n.parentId ∧ (F n).lvl = n.lvl ∧
        (F n).grp = n.grp) ∧
      (∀ n, sameGroup g self n = false → F n = n) := by
  unfold preSave
  cases hpid : self.parentId with
  | none =>
    exact ⟨fun n => n, by simp, fun n => ⟨rfl, rfl, rfl, rfl⟩, fun n _ => rfl⟩
  | some pid =>
    cases hfind : findOneId st pid with
    | none =>
      simp only [hfind]
      exact ⟨fun n => n, by simp, fun n => ⟨rfl, rfl, rfl, rfl⟩, fun n _ => rfl⟩
    | some par =>
      simp only [hfind]
      by_cases htr : (truthy par.lft && truthy par.rgt) = true
      · simp only [htr, if_true]
        by_cases hall : (siblings st self).all boundariesSet = true
        · simp only [hall, if_true, List.map_map]
          refine ⟨_, rfl, ?_, ?_⟩
          · intro n
            dsimp only [Function.comp_apply]
            split_ifs <;> simp
          · intro n hsg
            dsimp only [Function.comp_apply]
            simp [hsg]
        · simp only [Bool.not_eq_true] at hall
          simp only [hall, Bool.false_eq_true, if_false]
          exact ⟨fun n => n, by simp, fun n => ⟨rfl, rfl, rfl, rfl⟩, fun n _ => rfl⟩
      · simp only [Bool.not_eq_true] at htr
        simp only [htr, Bool.false_eq_true, if_false]
        exact ⟨fun n => n, by simp, fun n => ⟨rfl, rfl, rfl, rfl⟩, fun n _ => rfl⟩

lemma preRemove_store_map (g : Bool) (st : List NSNode) (self : NSNode) :
    ∃ G : NSNode → NSNode,
      preRemove g st self = st.map G ∧
      (∀ n, (G n).id = n.id ∧ (G n).parentId = n.parentId ∧ (G n).lvl = n.lvl ∧
        (G n).grp = n.grp) ∧
      (∀ n, sameGroup g self n = false → G n = n) := by
  unfold preRemove
  cases hpid : self.parentId with
  | none =>
    exact ⟨fun n => n, by simp, fun n => ⟨rfl, rfl, rfl, rfl⟩, fun n _ => rfl⟩
  | some pid =>
    cases hfind : findOneId st pid with
    | none =>
      simp only [hfind]
      exact ⟨fun n => n, by simp, fun n => ⟨rfl, rfl, rfl, rfl⟩, fun n _ => rfl⟩
    | some par =>
      simp only [hfind]
      by_cases htr : (truthy par.lft && truthy par.rgt) = true
      · simp only [htr, if_true]
        by_cases hall : (siblings st self).all boundariesSet = true
        · simp only [hall, if_true, List.map_map]
          refine ⟨_, rfl, ?_, ?_⟩
          · intro n
            dsimp only [Function.comp_apply]
            split_ifs <;> simp
          · intro n hsg
            dsimp only [Function.comp_apply]
            simp [hsg]
        · simp only [Bool.not_eq_true] at hall
          simp only [hall, Bool.false_eq_true, if_false]
          exact ⟨fun n => n, by simp, fun n => ⟨rfl, rfl, rfl, rfl⟩, fun n _ => rfl⟩
      · simp only [Bool.not_eq_true] at htr
        simp only [htr, Bool.false_eq_true, if_false]
        exact ⟨fun n => n, by simp, fun n => ⟨rfl, rfl, rfl, rfl⟩, fun n _ => rfl⟩

/-- **C7** (amended)  Only the creation and removal hooks' range updates
are scoped by the grouping key: with a grouping key configured, both
hooks act on the store as a per-record map that leaves every record with
a different grouping value unchanged.  (The relationship queries and
rebuildTree's children lookup carry no grouping condition at all, per the
counterexample.) -/
theorem grouping_scopes_only_hook_updates (st : List NSNode) (self : NSNode) :
    ∃ F G : NSNode → NSNode,
      (preSave true st self).1 = st.map F ∧
      preRemove true st self = st.map G ∧
      ∀ n, n.grp ≠ self.grp → F n = n ∧ G n = n := by
  obtain ⟨F, hF, _, hFs⟩ := preSave_store_map true st self
  obtain ⟨G, hG, _, hGs⟩ := preRemove_store_map true st self
  refine ⟨F, G, hF, hG, fun n hn => ⟨hFs n ?_, hGs n ?_⟩⟩ <;>
    simp [sameGroup, hn]

/-- Witness for C7 (amended): the hooks applied to a store holding only
the partition-20 record `nodeG3`, on behalf of the partition-10 node
`nodeG1`, leave the store unchanged. -/
theorem grouping_scopes_only_hook_updates_witness :
    (preSave true [nodeG3] nodeG1).1 = [nodeG3] ∧
      preRemove true [nodeG3] nodeG1 = [nodeG3] := by
  obtain ⟨F, G, hF, hG, h⟩ := grouping_scopes_only_hook_updates [nodeG3] nodeG1
  have h3 := h nodeG3 (by decide)
  exact ⟨by rw [hF]; simp [h3.1], by rw [hG]; simp [h3.2]⟩

/-- **C1**  On creation of a node whose parent and all existing siblings
have boundaries set, the save hook sets `lvl = parent.lvl + 1`, computes
`maxRgt` as the maximum sibling `rgt` (or `parent.lft` with zero
siblings), shifts every node with `lft > maxRgt` by +2 on `lft` and
every node with `rgt > maxRgt` by +2 on `rgt` (two independent range
updates, combined here into one per-record map), and assigns the new
node `lft = maxRgt + 1`, `rgt = maxRgt + 2`. -/
theorem save_inserts_after_rightmost_sibling
    (st : List NSNode) (self par : NSNode) (pid : Nat) (pl pr : Int)
    (hp : self.parentId = some pid) (hf : findOneId st pid = some par)
    (hpl : par.lft = some pl) (hpl0 : pl ≠ 0)
    (hpr : par.rgt = some pr) (hpr0 : pr ≠ 0)
    (hsib : ∀ s ∈ siblings st self,
      ∃ l r : Int, s.lft = some l ∧ l ≠ 0 ∧ s.rgt = some r ∧ 0 < r) :
    ∃ M : Int,
      (siblings st self = [] → M = pl) ∧
      (siblings st self ≠ [] →
        (∀ s ∈ siblings st self, cmpLe s.rgt (some M) = true) ∧
        ∃ s ∈ siblings st self, s.rgt = some M) ∧
      preSave false st self =
        (st.map (fun n =>
          { n with
            lft := if cmpLt (some M) n.lft then n.lft.map (· + 2) else n.lft,
            rgt := if cmpLt (some M) n.rgt then n.rgt.map (· + 2) else n.rgt }),
         { self with lvl := par.lvl + 1, lft := some (M + 1), rgt := some (M + 2) }) := by
  have hcond : (truthy par.lft && truthy par.rgt) = true := by
    rw [hpl, hpr]; simp [truthy, hpl0, hpr0]
  have hall : (siblings st self).all boundariesSet = true := by
    rw [List.all_eq_true]
    intro s hs
    obtain ⟨l, r, hl, hl0, hr, hr0⟩ := hsib s hs
    have hr0' : r ≠ 0 := by omega
    simp [boundariesSet, truthy, hl, hr, hl0, hr0']
  refine ⟨if (siblings st self).length == 0 then par.lft.getD 0
    else maxRgtFold (siblings st self), ?_, ?_, ?_⟩
  · intro h
    simp [h, hpl]
  · intro h
    have hlen : ((siblings st self).length == 0) = false := by
      simp only [beq_eq_false_iff_ne, ne_eq, List.length_eq_zero]
      exact h
    have hM : (if ((siblings st self).length == 0) = true then par.lft.getD 0
        else maxRgtFold (siblings st self)) = maxRgtFold (siblings st self) := by
      rw [hlen]; simp
    rw [hM]
    constructor
    · intro s hs
      obtain ⟨l, r, hl, hl0, hr, hr0⟩ := hsib s hs
      rw [hr]
      simp only [cmpLe, decide_eq_true_eq]
      exact foldl_maxStep_ub (siblings st self) 0 s hs r hr
    · rcases foldl_maxStep_attained (siblings st self) 0 with hz | ⟨s, hs, hr⟩
      · exfalso
        obtain ⟨s0, hs0⟩ := List.exists_mem_of_ne_nil _ h
        obtain ⟨l, r, hl, hl0, hr, hr0⟩ := hsib s0 hs0
        have hub := foldl_maxStep_ub (siblings st self) 0 s0 hs0 r hr
        omega
      · exact ⟨s, hs, hr⟩
  · simp only [preSave, hp, hf, hcond, eq_self_iff_true, if_true, hall, List.map_map]
    refine Prod.ext ?_ rfl
    refine congrArg (fun f => st.map f) ?_
    funext n
    obtain ⟨a, b, c, d, e, gg⟩ := n
    generalize (if ((siblings st self).length == 0) = true then par.lft.getD 0
      else maxRgtFold (siblings st self)) = M
    by_cases c1 : cmpLt (some M) c = true <;> by_cases c2 : cmpLt (some M) d = true <;>
      simp [sameGroup, c1, c2]

/-- Witness for C1: inserting `newChild` under `nodeP` (which already has
the single child `nodeC`) in the two-record store. -/
theorem save_inserts_after_rightmost_sibling_witness :
    ∃ M : Int,
      (siblings [nodeP, nodeC] newChild = [] → M = 1) ∧
      (siblings [nodeP, nodeC] newChild ≠ [] →
        (∀ s ∈ siblings [nodeP, nodeC] newChild, cmpLe s.rgt (some M) = true) ∧
        ∃ s ∈ siblings [nodeP, nodeC] newChild, s.rgt = some M) ∧
      preSave false [nodeP, nodeC] newChild =
        ([nodeP, nodeC].map (fun n =>
          { n with
            lft := if cmpLt (some M) n.lft then n.lft.map (· + 2) else n.lft,
            rgt := if cmpLt (some M) n.rgt then n.rgt.map (· + 2) else n.rgt }),
         { newChild with lvl := nodeP.lvl + 1, lft := some (M + 1), rgt := some (M + 2) }) :=
  save_inserts_after_rightmost_sibling [nodeP, nodeC] newChild nodeP 1 1 4
    rfl rfl rfl (by decide) rfl (by decide)
    (by
      intro s hs
      have hn : s = nodeC := by
        have he : siblings [nodeP, nodeC] newChild = [nodeC] := by decide
        rw [he] at hs
        simpa using hs
      subst hn
      exact ⟨2, 3, rfl, by decide, rfl, by decide⟩)

lemma shifts_combined (M d : Int) (g : Bool) (self n : NSNode) :
    shiftRgt M d g self (shiftLft M d g self n) =
      { n with
        lft := if cmpLt (some M) n.lft && sameGroup g self n then n.lft.map (· + d) else n.lft,
        rgt := if cmpLt (some M) n.rgt && sameGroup g self n then n.rgt.map (· + d) else n.rgt } := by
  obtain ⟨a, b, c, d0, e, f0⟩ := n
  simp only [shiftLft, shiftRgt, sameGroup]
  by_cases hg : (!g || f0 == self.grp) = true <;>
    by_cases c1 : cmpLt (some M) c = true <;>
    by_cases c2 : cmpLt (some M) d0 = true <;>
    simp [hg, c1, c2]

lemma shift_roundtrip (M : Int) (g : Bool) (self n : NSNode) :
    shiftRgt M (-2) g self (shiftLft M (-2) g self
      (shiftRgt M 2 g self (shiftLft M 2 g self n))) = n := by
  rw [shifts_combined, shifts_combined]
  obtain ⟨a, b, c, d0, e, f0⟩ := n
  simp only [sameGroup]
  by_cases hg : (!g || f0 == self.grp) = true
  · simp only [hg, Bool.and_true]
    cases c with
    | none =>
      cases d0 with
      | none => simp [cmpLt]
      | some v =>
        by_cases h : M < v
        · have h2 : M < v + 2 := by omega
          simp [cmpLt, h, h2]
          try omega
        · simp [cmpLt, h]
          try omega
    | some u =>
      cases d0 with
      | none =>
        by_cases h : M < u
        · have h2 : M < u + 2 := by omega
          simp [cmpLt, h, h2]
          try omega
        · simp [cmpLt, h]
          try omega
      | some v =>
        by_cases h : M < u <;> by_cases h' : M < v
        · have h2 : M < u + 2 := by omega
          have h3 : M < v + 2 := by omega
          simp [cmpLt, h, h', h2, h3]
        · have h2 : M < u + 2 := by omega
          simp [cmpLt, h, h', h2]
          try omega
        · have h3 : M < v + 2 := by omega
          simp [cmpLt, h, h', h3]
          try omega
        · simp [cmpLt, h, h']
          try omega
  · simp only [Bool.not_eq_true] at hg
    simp [hg]

lemma shiftLft_fields (M d : Int) (g : Bool) (self n : NSNode) :
    (shiftLft M d g self n).id = n.id ∧ (shiftLft M d g self n).parentId = n.parentId ∧
      (shiftLft M d g self n).rgt = n.rgt ∧ (shiftLft M d g self n).grp = n.grp := by
  unfold shiftLft
  split <;> simp

lemma shiftRgt_fields (M d : Int) (g : Bool) (self n : NSNode) :
    (shiftRgt M d g self n).id = n.id ∧ (shiftRgt M d g self n).parentId = n.parentId ∧
      (shiftRgt M d g self n).lft = n.lft ∧ (shiftRgt M d g self n).grp = n.grp := by
  unfold shiftRgt
  split <;> simp

lemma findOneId_map (st : List NSNode) (i : Nat) (f : NSNode → NSNode)
    (hid : ∀ n, (f n).id = n.id) :
    findOneId (st.map f) i = (findOneId st i).map f := by
  unfold findOneId
  rw [List.find?_map]
  have hfun : ((fun n : NSNode => n.id == i) ∘ f) = (fun n : NSNode => n.id == i) := by
    funext n
    simp [Function.comp, hid n]
  rw [hfun]

lemma filter_map_pred (p : NSNode → Bool) (f : NSNode → NSNode) (l : List NSNode)
    (hpf : ∀ n, p (f n) = p n) :
    (l.map f).filter p = (l.filter p).map f := by
  rw [List.filter_map]
  have hfun : (p ∘ f) = p := by
    funext n
    simp [Function.comp, hpf n]
  rw [hfun]

lemma siblings_map (st : List NSNode) (self : NSNode) (f : NSNode → NSNode)
    (hid : ∀ n, (f n).id = n.id) (hpar : ∀ n, (f n).parentId = n.parentId) :
    siblings (st.map f) self = (siblings st self).map f := by
  unfold siblings
  exact filter_map_pred _ f st (fun n => by simp [hid n, hpar n])

lemma map_congr_id (l : List NSNode) (f : NSNode → NSNode)
    (h : ∀ a ∈ l, f a = a) : l.map f = l := by
  rw [List.map_congr_left h]
  exact List.map_id l

lemma preSave_shift_path (g : Bool) (st : List NSNode) (self par : NSNode) (pid : Nat)
    (hp : self.parentId = some pid) (hf : findOneId st pid = some par)
    (hcond : (truthy par.lft && truthy par.rgt) = true)
    (hall : (siblings st self).all boundariesSet = true) :
    preSave g st self =
      ((st.map (shiftLft (saveM st self par) 2 g self)).map
          (shiftRgt (saveM st self par) 2 g self),
       { self with
          lvl := par.lvl + 1
          lft := some (saveM st self par + 1)
          rgt := some (saveM st self par + 2) }) := by
  simp only [preSave, hp, hf, hcond, eq_self_iff_true, if_true, hall]
  rfl

lemma preRemove_shift_path (g : Bool) (st : List NSNode) (self par : NSNode) (pid : Nat)
    (hp : self.parentId = some pid) (hf : findOneId st pid = some par)
    (hcond : (truthy par.lft && truthy par.rgt) = true)
    (hall : (siblings st self).all boundariesSet = true) :
    preRemove g st self =
      (st.map (shiftLft (saveM st self par) (-2) g self)).map
        (shiftRgt (saveM st self par) (-2) g self) := by
  simp only [preRemove, hp, hf, hcond, eq_self_iff_true, if_true, hall]
  rfl

/-- **C4**  Removing a node freshly inserted by the creation hook
restores every remaining record's `lft` and `rgt` exactly: the removal
hook recomputes the same `maxRgt` and its -2 shifts undo the +2 shifts
pointwise, so dropping the new node's own record leaves the original
store. -/
theorem insert_remove_roundtrip
    (g : Bool) (st : List NSNode) (self par : NSNode) (pid : Nat) (pl pr : Int)
    (hp : self.parentId = some pid) (hf : findOneId st pid = some par)
    (hpl : par.lft = some pl) (hpl0 : 0 < pl)
    (hpr : par.rgt = some pr) (hpr0 : 0 < pr)
    (hsib : ∀ s ∈ siblings st self,
      ∃ l r : Int, s.lft = some l ∧ 0 < l ∧ s.rgt = some r ∧ l < r)
    (hfresh : ∀ n ∈ st, n.id ≠ self.id) :
    (preRemove g ((preSave g st self).1 ++ [(preSave g st self).2])
        (preSave g st self).2).filter (fun n => n.id != self.id) = st := by
  have hcond : (truthy par.lft && truthy par.rgt) = true := by
    rw [hpl, hpr]
    have e1 : pl ≠ 0 := by omega
    have e2 : pr ≠ 0 := by omega
    simp [truthy, e1, e2]
  have hall : (siblings st self).all boundariesSet = true := by
    rw [List.all_eq_true]
    intro s hs
    obtain ⟨l, r, hl, hl0, hr, hlr⟩ := hsib s hs
    have e1 : l ≠ 0 := by omega
    have e2 : r ≠ 0 := by omega
    simp [boundariesSet, truthy, hl, hr, e1, e2]
  have hps := preSave_shift_path g st self par pid hp hf hcond hall
  rw [hps]
  dsimp only
  have hLid : ∀ n, (shiftLft (saveM st self par) 2 g self n).id = n.id :=
    fun n => (shiftLft_fields _ _ _ _ n).1
  have hRid : ∀ n, (shiftRgt (saveM st self par) 2 g self n).id = n.id :=
    fun n => (shiftRgt_fields _ _ _ _ n).1
  have hLpar : ∀ n, (shiftLft (saveM st self par) 2 g self n).parentId = n.parentId :=
    fun n => (shiftLft_fields _ _ _ _ n).2.1
  have hRpar : ∀ n, (shiftRgt (saveM st self par) 2 g self n).parentId = n.parentId :=
    fun n => (shiftRgt_fields _ _ _ _ n).2.1
  have hb2 : findOneId ((st.map (shiftLft (saveM st self par) 2 g self)).map
      (shiftRgt (saveM st self par) 2 g self)) pid =
      some (shiftRgt (saveM st self par) 2 g self
        (shiftLft (saveM st self par) 2 g self par)) := by
    rw [findOneId_map _ _ _ hRid, findOneId_map _ _ _ hLid, hf]
    rfl
  have hb : findOneId (((st.map (shiftLft (saveM st self par) 2 g self)).map
      (shiftRgt (saveM st self par) 2 g self)) ++
        [{ self with
            lvl := par.lvl + 1
            lft := some (saveM st self par + 1)
            rgt := some (saveM st self par + 2) }]) pid =
      some (shiftRgt (saveM st self par) 2 g self
        (shiftLft (saveM st self par) 2 g self par)) := by
    unfold findOneId at hb2 ⊢
    rw [List.find?_append, hb2]
    rfl
  have hlftpar2 : (shiftRgt (saveM st self par) 2 g self
      (shiftLft (saveM st self par) 2 g self par)).lft = some pl ∨
      (shiftRgt (saveM st self par) 2 g self
        (shiftLft (saveM st self par) 2 g self par)).lft = some (pl + 2) := by
    rw [(shiftRgt_fields _ _ _ _ _).2.2.1]
    unfold shiftLft
    split
    · right
      simp [hpl]
    · left
      exact hpl
  have hrgtpar2 : (shiftRgt (saveM st self par) 2 g self
      (shiftLft (saveM st self par) 2 g self par)).rgt = some pr ∨
      (shiftRgt (saveM st self par) 2 g self
        (shiftLft (saveM st self par) 2 g self par)).rgt = some (pr + 2) := by
    have e0 : (shiftLft (saveM st self par) 2 g self par).rgt = par.rgt :=
      (shiftLft_fields _ _ _ _ _).2.2.1
    unfold shiftRgt
    split
    · right
      simp [e0, hpr]
    · left
      rw [e0]
      exact hpr
  have hcond2 : (truthy (shiftRgt (saveM st self par) 2 g self
      (shiftLft (saveM st self par) 2 g self par)).lft &&
      truthy (shiftRgt (saveM st self par) 2 g self
        (shiftLft (saveM st self par) 2 g self par)).rgt) = true := by
    have e1 : pl ≠ 0 := by omega
    have e2 : pl + 2 ≠ 0 := by omega
    have e3 : pr ≠ 0 := by omega
    have e4 : pr + 2 ≠ 0 := by omega
    rcases hlftpar2 with h1 | h1 <;> rcases hrgtpar2 with h2 | h2 <;>
      simp [h1, h2, truthy, e1, e2, e3, e4]
  have hMnon : ∀ s, s ∈ siblings st self →
      saveM st self par = maxRgtFold (siblings st self) := by
    intro s hs
    unfold saveM
    have hne : siblings st self ≠ [] := by
      intro h0
      rw [h0] at hs
      cases hs
    have hlen : ((siblings st self).length == 0) = false := by
      simp only [beq_eq_false_iff_ne, ne_eq, List.length_eq_zero]
      exact hne
    rw [hlen]
    simp
  have hfixL : ∀ s ∈ siblings st self, shiftLft (saveM st self par) 2 g self s = s := by
    intro s hs
    obtain ⟨l, r, hl, hl0, hr, hlr⟩ := hsib s hs
    have hub : r ≤ maxRgtFold (siblings st self) :=
      foldl_maxStep_ub (siblings st self) 0 s hs r hr
    have c1 : cmpLt (some (saveM st self par)) s.lft = false := by
      rw [hl, hMnon s hs]
      simp only [cmpLt, decide_eq_false_iff_not]
      omega
    unfold shiftLft
    rw [c1]
    simp
  have hfixR : ∀ s ∈ siblings st self, shiftRgt (saveM st self par) 2 g self s = s := by
    intro s hs
    obtain ⟨l, r, hl, hl0, hr, hlr⟩ := hsib s hs
    have hub : r ≤ maxRgtFold (siblings st self) :=
      foldl_maxStep_ub (siblings st self) 0 s hs r hr
    have c2 : cmpLt (some (saveM st self par)) s.rgt = false := by
      rw [hr, hMnon s hs]
      simp only [cmpLt, decide_eq_false_iff_not]
      omega
    unfold shiftRgt
    rw [c2]
    simp
  have hsibs2 : siblings (((st.map (shiftLft (saveM st self par) 2 g self)).map
      (shiftRgt (saveM st self par) 2 g self)) ++
        [{ self with
            lvl := par.lvl + 1
            lft := some (saveM st self par + 1)
            rgt := some (saveM st self par + 2) }])
      { self with
        lvl := par.lvl + 1
        lft := some (saveM st self par + 1)
        rgt := some (saveM st self par + 2) } = siblings st self := by
    unfold siblings
    rw [List.filter_append]
    have e2 : List.filter (fun n => n.parentId ==
        ({ self with
            lvl := par.lvl + 1
            lft := some (saveM st self par + 1)
            rgt := some (saveM st self par + 2) } : NSNode).parentId &&
          n.id != ({ self with
            lvl := par.lvl + 1
            lft := some (saveM st self par + 1)
            rgt := some (saveM st self par + 2) } : NSNode).id)
        [{ self with
            lvl := par.lvl + 1
            lft := some (saveM st self par + 1)
            rgt := some (saveM st self par + 2) }] = [] := by
      simp
    rw [e2, List.append_nil]
    have e4 : siblings ((st.map (shiftLft (saveM st self par) 2 g self)).map
        (shiftRgt (saveM st self par) 2 g self)) self =
        ((siblings st self).map (shiftLft (saveM st self par) 2 g self)).map
          (shiftRgt (saveM st self par) 2 g self) := by
      rw [siblings_map _ _ _ hRid hRpar, siblings_map _ _ _ hLid hLpar]
    have e5 : ((siblings st self).map (shiftLft (saveM st self par) 2 g self)).map
        (shiftRgt (saveM st self par) 2 g self) = siblings st self := by
      rw [map_congr_id _ _ hfixL]
      exact map_congr_id _ _ hfixR
    have e45 := e4.trans e5
    unfold siblings at e45
    exact e45
  have hall2 : (siblings (((st.map (shiftLft (saveM st self par) 2 g self)).map
      (shiftRgt (saveM st self par) 2 g self)) ++
        [{ self with
            lvl := par.lvl + 1
            lft := some (saveM st self par + 1)
            rgt := some (saveM st self par + 2) }])
      { self with
        lvl := par.lvl + 1
        lft := some (saveM st self par + 1)
        rgt := some (saveM st self par + 2) }).all boundariesSet = true := by
    rw [hsibs2]
    exact hall
  have hM2 : saveM (((st.map (shiftLft (saveM st self par) 2 g self)).map
      (shiftRgt (saveM st self par) 2 g self)) ++
        [{ self with
            lvl := par.lvl + 1
            lft := some (saveM st self par + 1)
            rgt := some (saveM st self par + 2) }])
      { self with
        lvl := par.lvl + 1
        lft := some (saveM st self par + 1)
        rgt := some (saveM st self par + 2) }
      (shiftRgt (saveM st self par) 2 g self
        (shiftLft (saveM st self par) 2 g self par)) = saveM st self par := by
    rw [saveM, hsibs2]
    by_cases h0 : siblings st self = []
    · have hMz : saveM st self par = pl := by
        unfold saveM
        rw [h0]
        simp [hpl]
      have hunch : (shiftRgt (saveM st self par) 2 g self
          (shiftLft (saveM st self par) 2 g self par)).lft = some pl := by
        rw [(shiftRgt_fields _ _ _ _ _).2.2.1]
        unfold shiftLft
        have cc : cmpLt (some (saveM st self par)) par.lft = false := by
          rw [hpl, hMz]
          simp [cmpLt]
        rw [cc]
        simp only [Bool.false_and, Bool.false_eq_true, if_false]
        exact hpl
      rw [h0]
      simp only [List.length_nil, hunch]
      rw [hMz]
      simp [hpl]
    · have hlen : ((siblings st self).length == 0) = false := by
        simp only [beq_eq_false_iff_ne, ne_eq, List.length_eq_zero]
        exact h0
      rw [hlen]
      conv_rhs => rw [saveM, hlen]
      simp
  have hprm := preRemove_shift_path g
    (((st.map (shiftLft (saveM st self par) 2 g self)).map
      (shiftRgt (saveM st self par) 2 g self)) ++
        [{ self with
            lvl := par.lvl + 1
            lft := some (saveM st self par + 1)
            rgt := some (saveM st self par + 2) }])
    { self with
      lvl := par.lvl + 1
      lft := some (saveM st self par + 1)
      rgt := some (saveM st self par + 2) }
    (shiftRgt (saveM st self par) 2 g self
      (shiftLft (saveM st self par) 2 g self par))
    pid hp hb hcond2 hall2
  rw [hM2] at hprm
  rw [hprm]
  have hfeq : ∀ d : Int,
      shiftLft (saveM st self par) d g
        { self with
          lvl := par.lvl + 1
          lft := some (saveM st self par + 1)
          rgt := some (saveM st self par + 2) } =
        shiftLft (saveM st self par) d g self := by
    intro d
    rfl
  have hgeq : ∀ d : Int,
      shiftRgt (saveM st self par) d g
        { self with
          lvl := par.lvl + 1
          lft := some (saveM st self par + 1)
          rgt := some (saveM st self par + 2) } =
        shiftRgt (saveM st self par) d g self := by
    intro d
    rfl
  rw [hfeq, hgeq]
  simp only [List.map_append, List.map_cons, List.map_nil, List.map_map,
    List.filter_append]
  have hmain : st.map (shiftRgt (saveM st self par) (-2) g self ∘
      (shiftLft (saveM st self par) (-2) g self ∘
        (shiftRgt (saveM st self par) 2 g self ∘
          shiftLft (saveM st self par) 2 g self))) = st := by
    apply map_congr_id
    intro a ha
    dsimp only [Function.comp_apply]
    exact shift_roundtrip (saveM st self par) g self a
  rw [hmain]
  have hjunk : (List.filter (fun n => n.id != self.id)
      [shiftRgt (saveM st self par) (-2) g self
        (shiftLft (saveM st self par) (-2) g self
          { self with
            lvl := par.lvl + 1
            lft := some (saveM st self par + 1)
            rgt := some (saveM st self par + 2) })]) = [] := by
    have hjid : (shiftRgt (saveM st self par) (-2) g self
        (shiftLft (saveM st self par) (-2) g self
          { self with
            lvl := par.lvl + 1
            lft := some (saveM st self par + 1)
            rgt := some (saveM st self par + 2) })).id = self.id := by
      rw [(shiftRgt_fields _ _ _ _ _).1, (shiftLft_fields _ _ _ _ _).1]
    simp [hjid]
  rw [hjunk, List.append_nil]
  rw [List.filter_eq_self]
  intro a ha
  simp only [bne_iff_ne, ne_eq]
  exact hfresh a ha

/-- Witness for C4: inserting `newChild` under `nodeP` into the
two-record built store and then removing it restores `[nodeP, nodeC]`
exactly. -/
theorem insert_remove_roundtrip_witness :
    (preRemove false ((preSave false [nodeP, nodeC] newChild).1 ++
        [(preSave false [nodeP, nodeC] newChild).2])
      (preSave false [nodeP, nodeC] newChild).2).filter
        (fun n => n.id != newChild.id) = [nodeP, nodeC] :=
  insert_remove_roundtrip false [nodeP, nodeC] newChild nodeP 1 1 4
    rfl rfl rfl (by decide) rfl (by decide)
    (by
      intro s hs
      have hn : s = nodeC := by
        have he : siblings [nodeP, nodeC] newChild = [nodeC] := by decide
        rw [he] at hs
        simpa using hs
      subst hn
      exact ⟨2, 3, rfl, by decide, rfl, by decide⟩)
    (by decide)

lemma applyA_nil (st : List NSNode) : applyA [] st = st := by
  unfold applyA lookupA
  simp

lemma lookupA_append (l1 l2 : List (Nat × Int × Int)) (j : Nat) :
    lookupA (l1 ++ l2) j = (lookupA l1 j).or (lookupA l2 j) := by
  unfold lookupA
  exact List.find?_append

lemma applyA_congr (l1 l2 : List (Nat × Int × Int)) (st : List NSNode)
    (h : ∀ j, lookupA l1 j = lookupA l2 j) : applyA l1 st = applyA l2 st := by
  unfold applyA
  apply List.map_congr_left
  intro n _
  rw [h n.id]

lemma applyA_applyA (l1 l2 : List (Nat × Int × Int)) (st : List NSNode) :
    applyA l1 (applyA l2 st) = applyA (l1 ++ l2) st := by
  unfold applyA
  rw [List.map_map]
  apply List.map_congr_left
  intro n _
  dsimp only [Function.comp_apply]
  rw [lookupA_append]
  cases h2 : lookupA l2 n.id with
  | none =>
    dsimp only
    have e0 : (lookupA l1 n.id).or none = lookupA l1 n.id := by
      cases lookupA l1 n.id <;> rfl
    rw [e0]
  | some e2 =>
    dsimp only
    cases h1 : lookupA l1 n.id with
    | none => rfl
    | some e1 => rfl

lemma setBounds_eq_applyA (st : List NSNode) (i : Nat) (l r : Int) :
    setBounds st i l r = applyA [(i, l, r)] st := by
  unfold setBounds applyA lookupA
  apply List.map_congr_left
  intro n _
  by_cases h : n.id = i
  · have e1 : (n.id == i) = true := by simp [h]
    have e2 : (i == n.id) = true := by simp [h]
    simp only [e1, e2, List.find?_cons_of_pos, if_true]
  · have e1 : (n.id == i) = false := by simp [h]
    have e2 : (i == n.id) = false := by simp [Ne.symm h]
    simp only [e1, Bool.false_eq_true, if_false]
    rw [List.find?_cons_of_neg]
    · rfl
    · simp [e2]

lemma applyA_cons_setBounds (st : List NSNode) (asg : List (Nat × Int × Int))
    (i : Nat) (l r : Int) :
    setBounds (applyA asg st) i l r = applyA ((i, l, r) :: asg) st := by
  rw [setBounds_eq_applyA, applyA_applyA]
  rfl

lemma applyA_fields (asg : List (Nat × Int × Int)) (n : NSNode) :
    ((match lookupA asg n.id with
      | some e => { n with lft := some e.2.1, rgt := some e.2.2 }
      | none => n) : NSNode).id = n.id ∧
    ((match lookupA asg n.id with
      | some e => { n with lft := some e.2.1, rgt := some e.2.2 }
      | none => n) : NSNode).parentId = n.parentId := by
  cases lookupA asg n.id <;> exact ⟨rfl, rfl⟩

lemma childIds_map (st : List NSNode) (i : Nat) (f : NSNode → NSNode)
    (hid : ∀ n, (f n).id = n.id) (hpar : ∀ n, (f n).parentId = n.parentId) :
    childIds (st.map f) i = childIds st i := by
  unfold childIds
  rw [filter_map_pred _ f st (fun n => by rw [hpar n]), List.map_map]
  apply List.map_congr_left
  intro n _
  exact hid n

lemma childIds_applyA (asg : List (Nat × Int × Int)) (st : List NSNode) (i : Nat) :
    childIds (applyA asg st) i = childIds st i := by
  unfold applyA
  exact childIds_map st i _ (fun n => (applyA_fields asg n).1) (fun n => (applyA_fields asg n).2)

lemma subtreeIds_congr : ∀ (fuel : Nat) (s1 s2 : List NSNode) (i : Nat),
    (∀ j, childIds s1 j = childIds s2 j) →
    subtreeIds fuel s1 i = subtreeIds fuel s2 i := by
  intro fuel
  induction fuel with
  | zero => intro s1 s2 i h; rfl
  | succ fuel ih =>
    intro s1 s2 i h
    unfold subtreeIds
    rw [h i]
    have hfun : subtreeIds fuel s1 = subtreeIds fuel s2 :=
      funext fun j => ih s1 s2 j h
    rw [hfun]

lemma assignGo_congr : ∀ (fuel : Nat) (s1 s2 : List NSNode) (i : Nat) (left : Int),
    (∀ j, childIds s1 j = childIds s2 j) →
    assignGo fuel s1 i left = assignGo fuel s2 i left := by
  intro fuel
  induction fuel with
  | zero => intro s1 s2 i left h; rfl
  | succ fuel ih =>
    intro s1 s2 i left h
    unfold assignGo
    rw [h i]
    have hfun : assignGo fuel s1 = assignGo fuel s2 :=
      funext fun c => funext fun l => ih s1 s2 c l h
    rw [hfun]

lemma assignGo_ids : ∀ (fuel : Nat) (st : List NSNode) (i : Nat) (left : Int),
    (assignGo fuel st i left).1.map (fun e => e.1) = subtreeIds fuel st i := by
  intro fuel
  induction fuel with
  | zero => intro st i left; rfl
  | succ fuel ih =>
    intro st i left
    unfold assignGo subtreeIds
    by_cases hcs : (childIds st i).isEmpty
    · rw [if_pos hcs]
      have hnil : childIds st i = [] := by
        simpa [List.isEmpty_iff] using hcs
      rw [hnil]
      simp
    · rw [if_neg hcs]
      dsimp only
      have hfold : ∀ (cs : List Nat) (asg0 : List (Nat × Int × Int)) (r0 : Int),
          ((cs.foldl (fun acc c =>
              (acc.1 ++ (assignGo fuel st c acc.2).1, (assignGo fuel st c acc.2).2 + 1))
            (asg0, r0)).1).map (fun e => e.1) =
          asg0.map (fun e => e.1) ++ cs.flatMap (subtreeIds fuel st) := by
        intro cs
        induction cs with
        | nil =>
          intro asg0 r0
          simp
        | cons c cs ihc =>
          intro asg0 r0
          rw [List.foldl_cons, List.flatMap_cons]
          dsimp only
          rw [ihc, List.map_append, ih st c r0, List.append_assoc]
      rw [List.map_cons, hfold]
      simp

lemma intRange_append (a : Int) (m n : Nat) :
    intRange a (m + n) = intRange a m ++ intRange (a + m) n := by
  unfold intRange
  rw [List.range_add, List.map_append, List.map_map]
  congr 1
  apply List.map_congr_left
  intro t _
  dsimp only [Function.comp_apply]
  push_cast
  ring

lemma intRange_one (a : Int) : intRange a 1 = [a] := by
  unfold intRange
  have h1 : List.range 1 = [0] := rfl
  rw [h1]
  simp

lemma assignGo_spec : ∀ (fuel : Nat) (st : List NSNode) (i : Nat) (left : Int),
    okFuel fuel st i = true →
    (assignGo fuel st i left).2 + 1 = left + 2 * ((subtreeIds fuel st i).length : Int) ∧
    ((assignGo fuel st i left).1.flatMap (fun e => [e.2.1, e.2.2])).Perm
      (intRange left (2 * (subtreeIds fuel st i).length)) := by
  intro fuel
  induction fuel with
  | zero =>
    intro st i left hok
    cases hok
  | succ fuel ih =>
    intro st i left hok
    have hok' : ∀ c ∈ childIds st i, okFuel fuel st c = true := by
      rw [okFuel, List.all_eq_true] at hok
      exact hok
    unfold assignGo subtreeIds
    by_cases hcs : (childIds st i).isEmpty
    · rw [if_pos hcs]
      have hnil : childIds st i = [] := by
        simpa [List.isEmpty_iff] using hcs
      rw [hnil]
      constructor
      · simp
        ring
      · have hI : intRange left (2 * (i :: List.flatMap [] (subtreeIds fuel st)).length) =
            [left, left + 1] := by
          simp only [List.flatMap_nil, List.length_cons, List.length_nil]
          have hr2 : List.range 2 = [0, 1] := rfl
          unfold intRange
          norm_num [hr2]
        rw [hI]
        simp
    · rw [if_neg hcs]
      dsimp only
      have hfold : ∀ (cs : List Nat), (∀ c ∈ cs, okFuel fuel st c = true) →
          ∀ (asg0 : List (Nat × Int × Int)) (r0 : Int) (S0 : Nat),
          r0 = left + 1 + 2 * (S0 : Int) →
          (asg0.flatMap (fun e => [e.2.1, e.2.2])).Perm (intRange (left + 1) (2 * S0)) →
          ((cs.foldl (fun acc c =>
              (acc.1 ++ (assignGo fuel st c acc.2).1, (assignGo fuel st c acc.2).2 + 1))
            (asg0, r0)).2 =
            left + 1 + 2 * ((S0 + (cs.flatMap (subtreeIds fuel st)).length : Nat) : Int)) ∧
          (((cs.foldl (fun acc c =>
              (acc.1 ++ (assignGo fuel st c acc.2).1, (assignGo fuel st c acc.2).2 + 1))
            (asg0, r0)).1.flatMap (fun e => [e.2.1, e.2.2])).Perm
            (intRange (left + 1) (2 * (S0 + (cs.flatMap (subtreeIds fuel st)).length)))) := by
        intro cs
        induction cs with
        | nil =>
          intro hall asg0 r0 S0 hr hperm
          constructor
          · simpa using hr
          · simpa using hperm
        | cons c cs ihc =>
          intro hall asg0 r0 S0 hr hperm
          rw [List.foldl_cons]
          dsimp only
          have hcok : okFuel fuel st c = true := hall c (List.mem_cons_self c cs)
          have hchild := ih st c r0 hcok
          have hr' : (assignGo fuel st c r0).2 + 1 =
              left + 1 + 2 * ((S0 + (subtreeIds fuel st c).length : Nat) : Int) := by
            rw [hchild.1, hr]
            push_cast
            ring
          have hsplit : intRange (left + 1) (2 * (S0 + (subtreeIds fuel st c).length)) =
              intRange (left + 1) (2 * S0) ++
                intRange r0 (2 * (subtreeIds fuel st c).length) := by
            have e1 : 2 * (S0 + (subtreeIds fuel st c).length) =
                2 * S0 + 2 * (subtreeIds fuel st c).length := by ring
            rw [e1, intRange_append]
            have e2 : left + 1 + ((2 * S0 : Nat) : Int) = r0 := by
              rw [hr]
              push_cast
              ring
            rw [e2]
          have hpermnew : ((asg0 ++ (assignGo fuel st c r0).1).flatMap
              (fun e => [e.2.1, e.2.2])).Perm
              (intRange (left + 1) (2 * (S0 + (subtreeIds fuel st c).length))) := by
            rw [List.flatMap_append, hsplit]
            exact hperm.append hchild.2
          have hrec := ihc (fun c' hc' => hall c' (List.mem_cons_of_mem _ hc'))
            (asg0 ++ (assignGo fuel st c r0).1) ((assignGo fuel st c r0).2 + 1)
            (S0 + (subtreeIds fuel st c).length) hr' hpermnew
          have hlen : S0 + (subtreeIds fuel st c).length +
              (cs.flatMap (subtreeIds fuel st)).length =
              S0 + ((c :: cs).flatMap (subtreeIds fuel st)).length := by
            rw [List.flatMap_cons, List.length_append]
            omega
          rw [hlen] at hrec
          exact hrec
      have hbase : (([] : List (Nat × Int × Int)).flatMap
          (fun e => [e.2.1, e.2.2])).Perm (intRange (left + 1) (2 * 0)) := by
        simp only [List.flatMap_nil]
        have e0 : intRange (left + 1) (2 * 0) = [] := rfl
        rw [e0]
      have hres := hfold (childIds st i) hok' [] (left + 1) 0 (by push_cast; ring) hbase
      constructor
      · rw [hres.1]
        simp only [List.length_cons]
        push_cast
        ring
      · rw [List.flatMap_cons]
        have hsnd := hres.1
        have hL : intRange left
            (2 * (i :: (childIds st i).flatMap (subtreeIds fuel st)).length) =
            [left] ++ intRange (left + 1)
              (2 * (0 + ((childIds st i).flatMap (subtreeIds fuel st)).length)) ++
              [left + 1 + 2 * ((0 + ((childIds st i).flatMap (subtreeIds fuel st)).length :
                Nat) : Int)] := by
          have e1 : 2 * (i :: (childIds st i).flatMap (subtreeIds fuel st)).length =
              1 + (2 * (0 + ((childIds st i).flatMap (subtreeIds fuel st)).length) + 1) := by
            simp only [List.length_cons]
            omega
          rw [e1, intRange_append, intRange_append]
          rw [intRange_one, intRange_one]
          have e2 : left + (1 : Nat) = left + 1 := by push_cast; ring
          have e3 : left + 1 +
              ((2 * (0 + ((childIds st i).flatMap (subtreeIds fuel st)).length) : Nat) : Int) =
              left + 1 + 2 * ((0 + ((childIds st i).flatMap (subtreeIds fuel st)).length :
                Nat) : Int) := by
            push_cast
            ring
          rw [e2, e3, List.append_assoc]
        rw [hL, List.singleton_append]
        dsimp only
        rw [hsnd]
        refine List.Perm.cons left ?_
        refine List.Perm.trans (List.Perm.symm (List.perm_append_singleton _ _)) ?_
        exact List.Perm.append_right _ hres.2

lemma lookupA_shadow (j i : Nat) (v w : Int × Int) (asgc asg0 : List (Nat × Int × Int))
    (hdisj : ∀ k, k ∈ asgc.map (fun e => e.1) → k ∉ asg0.map (fun e => e.1)) :
    lookupA ((i, v) :: (asgc ++ (i, w) :: asg0)) j =
      lookupA ((i, v) :: (asg0 ++ asgc)) j := by
  unfold lookupA
  rw [List.find?_cons, List.find?_cons]
  dsimp only
  by_cases hj : ((i, v).1 == j) = true
  · rw [hj]
  · rw [Bool.not_eq_true] at hj
    rw [hj]
    dsimp only
    rw [List.find?_append, List.find?_append, List.find?_cons]
    dsimp only
    have hij : (((i, w) : Nat × Int × Int).1 == j) = false := hj
    rw [hij]
    dsimp only
    cases hc : asgc.find? (fun e => e.1 == j) with
    | some e =>
      have hpe : (e.1 == j) = true := (List.find?_eq_some.mp hc).1
      have hmem : e ∈ asgc := List.mem_of_find?_eq_some hc
      have hje : j ∈ asgc.map (fun e => e.1) := by
        have : e.1 = j := by simpa using hpe
        exact this ▸ List.mem_map_of_mem (fun e => e.1) hmem
      have hnot : j ∉ asg0.map (fun e => e.1) := hdisj j hje
      have h0 : asg0.find? (fun e => e.1 == j) = none := by
        rw [List.find?_eq_none]
        intro x hx hpx
        exact hnot (by
          have : x.1 = j := by simpa using hpx
          exact this ▸ List.mem_map_of_mem (fun e => e.1) hx)
      rw [h0]
      rfl
    | none =>
      cases h0 : asg0.find? (fun e => e.1 == j) <;> rfl

lemma rebuildGo_eq_applyA : ∀ (fuel : Nat) (st : List NSNode) (i : Nat) (left : Int),
    (subtreeIds fuel st i).Nodup →
    rebuildGo fuel st i left =
      (applyA (assignGo fuel st i left).1 st, (assignGo fuel st i left).2) := by
  intro fuel
  induction fuel with
  | zero =>
    intro st i left h0
    rw [rebuildGo, assignGo, applyA_nil]
  | succ fuel ih =>
    intro st i left hnd
    rw [rebuildGo, assignGo]
    by_cases hcs : (childIds st i).isEmpty
    · rw [if_pos hcs, if_pos hcs, setBounds_eq_applyA]
    · rw [if_neg hcs, if_neg hcs]
      dsimp only
      rw [subtreeIds] at hnd
      have hfold : ∀ (csr : List Nat) (asg0 : List (Nat × Int × Int)) (racc : Int),
          (i :: (asg0.map (fun e => e.1) ++ csr.flatMap (subtreeIds fuel st))).Nodup →
          List.foldl (fun acc c =>
              (setBounds (rebuildGo fuel acc.1 c acc.2).1 i left
                  ((rebuildGo fuel acc.1 c acc.2).2 + 1),
                (rebuildGo fuel acc.1 c acc.2).2 + 1))
            (applyA ((i, left, racc) :: asg0) st, racc) csr =
          (applyA ((i, left,
              (List.foldl (fun acc c =>
                (acc.1 ++ (assignGo fuel st c acc.2).1, (assignGo fuel st c acc.2).2 + 1))
                (asg0, racc) csr).2) ::
              (List.foldl (fun acc c =>
                (acc.1 ++ (assignGo fuel st c acc.2).1, (assignGo fuel st c acc.2).2 + 1))
                (asg0, racc) csr).1) st,
            (List.foldl (fun acc c =>
              (acc.1 ++ (assignGo fuel st c acc.2).1, (assignGo fuel st c acc.2).2 + 1))
              (asg0, racc) csr).2) := by
        intro csr
        induction csr with
        | nil =>
          intro asg0 racc hn
          rfl
        | cons c csr ihc =>
          intro asg0 racc hn
          rw [List.foldl_cons, List.foldl_cons]
          dsimp only
          have hch : ∀ j, childIds (applyA ((i, left, racc) :: asg0) st) j = childIds st j :=
            fun j => childIds_applyA _ st j
          have hsub : subtreeIds fuel (applyA ((i, left, racc) :: asg0) st) c =
              subtreeIds fuel st c := subtreeIds_congr fuel _ st c hch
          rw [List.flatMap_cons] at hn
          rw [List.nodup_cons] at hn
          obtain ⟨hi, hrest⟩ := hn
          obtain ⟨hnd0, hnd1, hdisj01⟩ := List.nodup_append.mp hrest
          obtain ⟨hndc, hndrest, hdisjcr⟩ := List.nodup_append.mp hnd1
          have hreb := ih (applyA ((i, left, racc) :: asg0) st) c racc
            (by rw [hsub]; exact hndc)
          rw [hreb]
          have hasg : assignGo fuel (applyA ((i, left, racc) :: asg0) st) c racc =
              assignGo fuel st c racc := assignGo_congr fuel _ st c racc hch
          rw [hasg]
          dsimp only
          rw [applyA_applyA, applyA_cons_setBounds]
          have hre : applyA ((i, left, (assignGo fuel st c racc).2 + 1) ::
              ((assignGo fuel st c racc).1 ++ (i, left, racc) :: asg0)) st =
              applyA ((i, left, (assignGo fuel st c racc).2 + 1) ::
                (asg0 ++ (assignGo fuel st c racc).1)) st := by
            apply applyA_congr
            intro j
            apply lookupA_shadow
            intro k hk hk0
            rw [assignGo_ids] at hk
            exact (hdisj01 hk0) (List.mem_append_left _ hk)
          rw [hre]
          have hn' : (i :: ((asg0 ++ (assignGo fuel st c racc).1).map (fun e => e.1) ++
              csr.flatMap (subtreeIds fuel st))).Nodup := by
            rw [List.map_append, assignGo_ids, List.append_assoc]
            exact List.nodup_cons.mpr ⟨hi, hrest⟩
          exact ihc _ _ hn'
      cases hlist : childIds st i with
      | nil =>
        rw [hlist] at hcs
        simp at hcs
      | cons c0 cs =>
        rw [hlist] at hnd
        rw [List.flatMap_cons] at hnd
        rw [List.nodup_cons] at hnd
        obtain ⟨hi0, hrest0⟩ := hnd
        obtain ⟨hndc0, hndrest0, hdisj0⟩ := List.nodup_append.mp hrest0
        rw [List.foldl_cons, List.foldl_cons]
        dsimp only
        have hreb0 := ih st c0 (left + 1) hndc0
        rw [hreb0]
        dsimp only
        rw [applyA_cons_setBounds, List.nil_append]
        have hn0 : (i :: (((assignGo fuel st c0 (left + 1)).1.map (fun e => e.1)) ++
            cs.flatMap (subtreeIds fuel st))).Nodup := by
          rw [assignGo_ids]
          exact List.nodup_cons.mpr ⟨hi0, hrest0⟩
        exact hfold cs _ _ hn0

lemma applyA_boundPair_perm : ∀ (st : List NSNode) (asg : List (Nat × Int × Int)),
    (st.map (fun n => n.id)).Nodup →
    (asg.map (fun e => e.1)).Nodup →
    (∀ n ∈ st, n.id ∈ asg.map (fun e => e.1)) →
    (∀ e ∈ asg, e.1 ∈ st.map (fun n => n.id)) →
    ((applyA asg st).flatMap boundPair).Perm (asg.flatMap (fun e => [e.2.1, e.2.2])) := by
  intro st
  induction st with
  | nil =>
    intro asg hnd hnda hsta hasg
    cases asg with
    | nil => exact List.Perm.refl _
    | cons e asg' =>
      have := hasg e (List.mem_cons_self e asg')
      simp at this
  | cons n st' ihs =>
    intro asg hnd hnda hsta hasg
    have hmem : n.id ∈ asg.map (fun e => e.1) := hsta n (List.mem_cons_self n st')
    obtain ⟨e0, he0, heq0⟩ := List.mem_map.mp hmem
    cases hlk : lookupA asg n.id with
    | none =>
      exfalso
      unfold lookupA at hlk
      rw [List.find?_eq_none] at hlk
      exact hlk e0 he0 (by simp [heq0])
    | some e =>
      have hlk2 : asg.find? (fun e => e.1 == n.id) = some e := hlk
      obtain ⟨hpe, hrest⟩ := List.find?_eq_some.mp hlk2
      obtain ⟨a1, a2, hsplit, hnone⟩ := hrest
      have heid : e.1 = n.id := by simpa using hpe
      have hndid : n.id ∉ st'.map (fun m => m.id) := (List.nodup_cons.mp hnd).1
      have hnd' : (st'.map (fun m => m.id)).Nodup := (List.nodup_cons.mp hnd).2
      -- the asg id multiset decomposes around n.id
      have hids : asg.map (fun e => e.1) =
          a1.map (fun e => e.1) ++ n.id :: a2.map (fun e => e.1) := by
        rw [hsplit, List.map_append, List.map_cons, heid]
      have hnda2 := hnda
      rw [hids] at hnda2
      obtain ⟨hndA1, hndA2c, hdisjA⟩ := List.nodup_append.mp hnda2
      have hnidA1 : n.id ∉ a1.map (fun e => e.1) := by
        intro hin
        exact (hdisjA hin) (List.mem_cons_self _ _)
      have hnidA2 : n.id ∉ a2.map (fun e => e.1) := (List.nodup_cons.mp hndA2c).1
      -- lookups of other ids ignore the removed entry
      have hlk' : ∀ j, j ≠ n.id → lookupA asg j = lookupA (a1 ++ a2) j := by
        intro j hj
        rw [hsplit]
        unfold lookupA
        rw [List.find?_append, List.find?_append, List.find?_cons]
        have hne : (e.1 == j) = false := by
          rw [heid]
          exact beq_eq_false_iff_ne.mpr (Ne.symm hj)
        rw [hne]
      have happ : applyA asg st' = applyA (a1 ++ a2) st' := by
        unfold applyA
        apply List.map_congr_left
        intro m hm
        have hmne : m.id ≠ n.id := by
          intro hEq
          exact hndid (hEq ▸ List.mem_map_of_mem (fun x => x.id) hm)
        rw [hlk' m.id hmne]
      -- IH preconditions
      have hndab : ((a1 ++ a2).map (fun e => e.1)).Nodup := by
        rw [List.map_append]
        rw [List.nodup_append]
        refine ⟨hndA1, (List.nodup_cons.mp hndA2c).2, ?_⟩
        intro k hk1 hk2
        exact (hdisjA hk1) (List.mem_cons_of_mem _ hk2)
      have hsta' : ∀ m ∈ st', m.id ∈ (a1 ++ a2).map (fun e => e.1) := by
        intro m hm
        have hmne : m.id ≠ n.id := by
          intro hEq
          exact hndid (hEq ▸ List.mem_map_of_mem (fun x => x.id) hm)
        have := hsta m (List.mem_cons_of_mem n hm)
        rw [hids] at this
        rw [List.map_append]
        rcases List.mem_append.mp this with h | h
        · exact List.mem_append.mpr (Or.inl h)
        · rcases List.mem_cons.mp h with h' | h'
          · exact absurd h' hmne
          · exact List.mem_append.mpr (Or.inr h')
      have hasg' : ∀ e' ∈ a1 ++ a2, e'.1 ∈ st'.map (fun m => m.id) := by
        intro e' he'
        have he'ne : e'.1 ≠ n.id := by
          intro hEq
          rcases List.mem_append.mp he' with h | h
          · exact hnidA1 (hEq ▸ List.mem_map_of_mem (fun x => x.1) h)
          · exact hnidA2 (hEq ▸ List.mem_map_of_mem (fun x => x.1) h)
        have he'asg : e' ∈ asg := by
          rw [hsplit]
          rcases List.mem_append.mp he' with h | h
          · exact List.mem_append.mpr (Or.inl h)
          · exact List.mem_append.mpr (Or.inr (List.mem_cons_of_mem e h))
        have := hasg e' he'asg
        rw [List.map_cons] at this
        rcases List.mem_cons.mp this with h | h
        · exact absurd h he'ne
        · exact h
      have hih := ihs (a1 ++ a2) hnd' hndab hsta' hasg'
      -- assemble
      unfold applyA
      rw [List.map_cons, hlk, List.flatMap_cons]
      have hbp : boundPair { n with lft := some e.2.1, rgt := some e.2.2 } =
          [e.2.1, e.2.2] := by
        simp [boundPair]
      rw [hbp]
      have hlhs : (List.map (fun m =>
          match lookupA asg m.id with
          | some e => { m with lft := some e.2.1, rgt := some e.2.2 }
          | none => m) st').flatMap boundPair =
          (applyA (a1 ++ a2) st').flatMap boundPair := by
        rw [show (List.map (fun m =>
          match lookupA asg m.id with
          | some e => { m with lft := some e.2.1, rgt := some e.2.2 }
          | none => m) st') = applyA asg st' from rfl, happ]
      rw [hlhs]
      rw [hsplit, List.flatMap_append, List.flatMap_cons]
      refine List.Perm.trans (List.Perm.append_left [e.2.1, e.2.2] hih) ?_
      rw [List.flatMap_append]
      rw [← List.append_assoc, ← List.append_assoc]
      exact List.Perm.append_right _ List.perm_append_comm

/-- **C2**  For a tree of N nodes given by parent pointers (the subtree
enumeration from the root covers the store's ids exactly once and the
recursion terminates within the store-length fuel), `rebuildTree(root, 1)`
assigns boundary values that are exactly `{1, ..., 2N}`, each integer
used once as either an `lft` or an `rgt`; and rerunning the rebuild on
the resulting store produces identical boundaries (idempotence). -/
theorem rebuild_range_and_idempotent (st : List NSNode) (rootId : Nat)
    (hnd : (st.map (fun n => n.id)).Nodup)
    (hok : okFuel st.length st rootId = true)
    (hperm : (subtreeIds st.length st rootId).Perm (st.map (fun n => n.id))) :
    ((rebuildGo st.length st rootId 1).1.flatMap boundPair).Perm
        (intRange 1 (2 * st.length)) ∧
      rebuildGo st.length (rebuildGo st.length st rootId 1).1 rootId 1 =
        rebuildGo st.length st rootId 1 := by
  have hsubnd : (subtreeIds st.length st rootId).Nodup := (hperm.nodup_iff).mpr hnd
  have hA := rebuildGo_eq_applyA st.length st rootId 1 hsubnd
  have hspec := assignGo_spec st.length st rootId 1 hok
  have hids := assignGo_ids st.length st rootId 1
  constructor
  · rw [hA]
    dsimp only
    have hE := applyA_boundPair_perm st (assignGo st.length st rootId 1).1 hnd
      (by rw [hids]; exact hsubnd)
      (by
        intro n hn
        rw [hids]
        exact (hperm.mem_iff).mpr (List.mem_map_of_mem (fun m => m.id) hn))
      (by
        intro e he
        have : e.1 ∈ (assignGo st.length st rootId 1).1.map (fun e => e.1) :=
          List.mem_map_of_mem (fun e => e.1) he
        rw [hids] at this
        exact (hperm.mem_iff).mp this)
    refine hE.trans ?_
    have hlen : (subtreeIds st.length st rootId).length = st.length := by
      rw [hperm.length_eq, List.length_map]
    have h2 := hspec.2
    rw [hlen] at h2
    exact h2
  · have hch : ∀ j, childIds (rebuildGo st.length st rootId 1).1 j = childIds st j := by
      intro j
      rw [hA]
      exact childIds_applyA _ st j
    have hsub1 : subtreeIds st.length (rebuildGo st.length st rootId 1).1 rootId =
        subtreeIds st.length st rootId := subtreeIds_congr _ _ _ _ hch
    have hA2 := rebuildGo_eq_applyA st.length (rebuildGo st.length st rootId 1).1 rootId 1
      (by rw [hsub1]; exact hsubnd)
    have hasg2 : assignGo st.length (rebuildGo st.length st rootId 1).1 rootId 1 =
        assignGo st.length st rootId 1 := assignGo_congr _ _ _ _ _ hch
    rw [hA2, hasg2, hA]
    dsimp only
    rw [applyA_applyA]
    refine Prod.ext ?_ rfl
    apply applyA_congr
    intro j
    rw [lookupA_append]
    cases h : lookupA (assignGo st.length st rootId 1).1 j <;> rfl

/-- Witness for C2: the two-node parent-pointer tree rooted at id 1. -/
theorem rebuild_range_and_idempotent_witness :
    ((rebuildGo twoStore.length twoStore 1 1).1.flatMap boundPair).Perm
        (intRange 1 (2 * twoStore.length)) ∧
      rebuildGo twoStore.length (rebuildGo twoStore.length twoStore 1 1).1 1 1 =
        rebuildGo twoStore.length twoStore 1 1 :=
  rebuild_range_and_idempotent twoStore 1 (by decide) (by decide) (by decide)
